import Mathlib

/-!
Shallow embedding of the erda pipeline reconciler
(`modules/pipeline/providers/reconciler/pipeline_reconciler.go`).

The reconciler's external collaborators (the task merger, the planner, the
store, the event bus) are modelled as explicit inputs: store reads and the
merger/planner are passed in as `Except`-valued arguments, store-write
outcomes as `Bool` sequences, and the emitted events / store writes are
returned as explicit traces.  The `apistructs` status helpers and the
`statusutil` reduction live outside the given source slice and are modelled
from the spec where noted.
-/

/-- Modelled from the spec: `apistructs.PipelineStatus` (not in the source
slice).  The spec's §3 status universe: pre-queue and queued non-terminal
statuses, `Running`, and the terminal statuses `Success`, `Failed`,
`Timeout`/`Error` kinds and `StopByUser`. -/
inductive PipelineStatus where
  | born
  | queue
  | running
  | success
  | failed
  | timeout
  | error
  | stopByUser
deriving DecidableEq, Repr

/-- Modelled from the spec: `PipelineStatus.IsEndStatus` — terminal statuses
are exactly `Success`, `Failed`, `Timeout`, `Error`, `StopByUser`. -/
def PipelineStatus.isEndStatus : PipelineStatus → Bool
  | .success => true
  | .failed => true
  | .timeout => true
  | .error => true
  | .stopByUser => true
  | _ => false

/-- Modelled from the spec: `PipelineStatus.IsSuccessStatus` — only
`Success` counts as a success status. -/
def PipelineStatus.isSuccessStatus : PipelineStatus → Bool
  | .success => true
  | _ => false

/-- Modelled from the spec: `PipelineStatus.AfterPipelineQueue` — a status
has passed the after-queue checkpoint once it is `Running` or terminal. -/
def PipelineStatus.afterPipelineQueue (s : PipelineStatus) : Bool :=
  s = PipelineStatus.running || s.isEndStatus

/-- A pipeline task: unique `Name` within its pipeline plus a status
(authoritative from the store). -/
structure PipelineTask where
  name : String
  status : PipelineStatus
deriving DecidableEq, Repr

/-- The durable pipeline entity fields the reconciler touches. -/
structure Pipeline where
  id : Nat
  status : PipelineStatus
  timeBegin : Nat
  timeEnd : Option Nat
  costTimeSec : Nat
  completeReconcilerTeardown : Bool
deriving DecidableEq, Repr

/-- The per-reconciler mutable state of `defaultPipelineReconciler`:
`processingTasks` (a set of task names, modelled as a list), the canceling
flag, the tri-state have-task flag, and the cached aggregated status. -/
structure ReconcilerState where
  processingTasks : List String
  flagCanceling : Bool
  flagHaveTask : Option Bool
  calculatedPipelineStatusByAllReconciledTasks : PipelineStatus
deriving DecidableEq, Repr

/-- Modelled from the spec: `statusutil.CalculatePipelineStatusV2` (not in
the source slice), the fixed reduction of §4.4.1: any non-terminal task →
`Running`; else any `StopByUser` → `StopByUser`; else any `Failed` →
`Failed`; else any other error/timeout kind → that kind; else `Success`
(empty input reduces to `Success`). -/
def calculatePipelineStatusV2 (tasks : List PipelineTask) : PipelineStatus :=
  if tasks.any (fun t => ¬ t.status.isEndStatus) then .running
  else if tasks.any (fun t => t.status = .stopByUser) then .stopByUser
  else if tasks.any (fun t => t.status = .failed) then .failed
  else if tasks.any (fun t => t.status = .error) then .error
  else if tasks.any (fun t => t.status = .timeout) then .timeout
  else .success

/-- Modelled from the spec: `statusutil.CalculatePipelineTaskAllDone` (not
in the source slice) — every task is in a terminal status. -/
def calculatePipelineTaskAllDone (tasks : List PipelineTask) : Bool :=
  tasks.all (fun t => t.status.isEndStatus)

/-- `CancelReconcile`: sets the canceling flag under the mutex and nothing
else. -/
def cancelReconcile (st : ReconcilerState) : ReconcilerState :=
  { st with flagCanceling := true }

/-- The insert-if-absent filter of `GetTasksCanBeConcurrentlyScheduled`:
for each schedulable task, `processingTasks.LoadOrStore(task.Name)`; the
task is kept only if its name was absent, and the name is recorded. -/
def loadOrStoreFilter (processing : List String) : List PipelineTask → List String × List PipelineTask
  | [] => (processing, [])
  | t :: ts =>
    if t.name ∈ processing then
      loadOrStoreFilter processing ts
    else
      let r := loadOrStoreFilter (t.name :: processing) ts
      (r.1, t :: r.2)

/-- `GetTasksCanBeConcurrentlyScheduled`.  The merger
(`ymlTaskMergeDBTasks`) and the planner (`GetSchedulableTasks`) are
external collaborators, passed in as their results. -/
def getTasksCanBeConcurrentlyScheduled (st : ReconcilerState)
    (mergeRes : Except Unit (List PipelineTask))
    (schedRes : List PipelineTask → Except Unit (List PipelineTask)) :
    ReconcilerState × Except Unit (List PipelineTask) :=
  match mergeRes with
  | .error _ => (st, .error ())
  | .ok allTasks =>
    if st.flagCanceling then (st, .ok [])
    else
      match schedRes allTasks with
      | .error _ => (st, .error ())
      | .ok schedulableTasks =>
        let r := loadOrStoreFilter st.processingTasks schedulableTasks
        ({ st with processingTasks := r.1 }, .ok r.2)

/-- One reconciler lifetime: a sequence of calls to
`GetTasksCanBeConcurrentlyScheduled`, threading the state and collecting
each call's returned task list (an errored call returns no tasks). -/
def runGetTasksCalls (st : ReconcilerState) :
    List (Except Unit (List PipelineTask) × (List PipelineTask → Except Unit (List PipelineTask))) →
    ReconcilerState × List (List PipelineTask)
  | [] => (st, [])
  | call :: rest =>
    let r := getTasksCanBeConcurrentlyScheduled st call.1 call.2
    let out := match r.2 with
      | .ok ts => ts
      | .error _ => []
    let rr := runGetTasksCalls r.1 rest
    (rr.1, out :: rr.2)

/-- Number of tasks named `name` in a task list. -/
def countNamed (name : String) (ts : List PipelineTask) : Nat :=
  (ts.filter (fun t => t.name = name)).length

/-- Membership indicator of a name in the processing set. -/
def indMem (name : String) (l : List String) : Nat :=
  if name ∈ l then 1 else 0

/-- The part of the status aggregator after `flagHaveTask` is guaranteed
set: load the reconciled task rows (`rowsRes` is the store's
`ListPipelineTasksByPipelineID` answer), run the reduction, apply the
zero-rows and canceling overrides, and store the result under the mutex. -/
def calculatePipelineStatusAfterFlag (st : ReconcilerState)
    (rowsRes : Except Unit (List PipelineTask)) :
    ReconcilerState × Except Unit Unit :=
  match rowsRes with
  | .error _ => (st, .error ())
  | .ok tasks =>
    let c0 := calculatePipelineStatusV2 tasks
    let c1 :=
      if c0.isSuccessStatus && tasks.length == 0 && st.flagHaveTask.getD false
      then PipelineStatus.running else c0
    let c2 := if st.flagCanceling then PipelineStatus.stopByUser else c1
    ({ st with calculatedPipelineStatusByAllReconciledTasks := c2 }, .ok ())

/-- The full status aggregator: first memoize `flagHaveTask` via the merger
if still unknown (propagating a merger error with the state unchanged),
then run the row load, reduction and overrides. -/
def calculatePipelineStatusByAllReconciledTasks (st : ReconcilerState)
    (mergeRes rowsRes : Except Unit (List PipelineTask)) :
    ReconcilerState × Except Unit Unit :=
  match st.flagHaveTask, mergeRes with
  | none, .error _ => (st, .error ())
  | none, .ok allTasks =>
    calculatePipelineStatusAfterFlag
      { st with flagHaveTask := some (decide (allTasks.length > 0)) } rowsRes
  | some _, _ => calculatePipelineStatusAfterFlag st rowsRes

/-- Observable outcome of one `UpdateCurrentReconcileStatusIfNecessary`
call: the pipeline after the call, the statuses successfully written to the
store, the pipeline-instance events emitted (recorded by the pipeline
status at emission time), and whether an error was returned. -/
structure UpdateResult where
  p : Pipeline
  writes : List PipelineStatus
  events : List PipelineStatus
  err : Bool
deriving DecidableEq, Repr

/-- `UpdateCurrentReconcileStatusIfNecessary`.  `mergeRes` is the merger's
answer (consulted only when the cached aggregated status is not terminal);
`storeOk` tells whether the `UpdatePipelineBaseStatus` write would
succeed. -/
def updateCurrentReconcileStatusIfNecessary (st : ReconcilerState)
    (p : Pipeline) (mergeRes : Except Unit (List PipelineTask))
    (storeOk : Bool) : UpdateResult :=
  -- the common tail: compare with the current status, write, mutate, emit
  let finish : PipelineStatus → UpdateResult := fun calculatedPipelineStatus =>
    if p.status = calculatedPipelineStatus then ⟨p, [], [], false⟩
    else if storeOk then
      ⟨{ p with status := calculatedPipelineStatus },
        [calculatedPipelineStatus], [calculatedPipelineStatus], false⟩
    else ⟨p, [], [], true⟩
  if st.calculatedPipelineStatusByAllReconciledTasks.isEndStatus then
    finish st.calculatedPipelineStatusByAllReconciledTasks
  else
    match mergeRes with
    | .error _ => ⟨p, [], [], true⟩
    | .ok allTasks =>
      if calculatePipelineTaskAllDone allTasks then
        finish (calculatePipelineStatusV2 allTasks)
      else ⟨p, [], [], false⟩

/-- Observable effect of one `PrepareBeforeReconcile` call: a store-write
attempt of `UpdatePipelineBaseStatus(id, Running)` with its outcome, or an
emitted pipeline-instance event. -/
inductive PrepEffect where
  | writeAttempt (ok : Bool)
  | event (s : PipelineStatus)
deriving DecidableEq, Repr

/-- The retry loop of `PrepareBeforeReconcile`: keep attempting the status
write, sleeping between failures, until one attempt succeeds.  The input
list gives the outcome of each successive store attempt; `none` means the
modelled attempts were exhausted with the loop still retrying. -/
def prepareStatusLoop : List Bool → Option (List PrepEffect)
  | [] => none
  | ok :: rest =>
    if ok then some [PrepEffect.writeAttempt true]
    else (prepareStatusLoop rest).map (PrepEffect.writeAttempt false :: ·)

/-- `PrepareBeforeReconcile` (without the asynchronous trigger-loop send,
which touches no pipeline or store state): if the status already passed the
after-queue checkpoint, do nothing; otherwise retry the `Running` write
until it succeeds, set the in-memory status, and emit one event. -/
def prepareBeforeReconcile (p : Pipeline) (storeResults : List Bool) :
    Option (Pipeline × List PrepEffect) :=
  if p.status.afterPipelineQueue then some (p, [])
  else
    (prepareStatusLoop storeResults).map fun tr =>
      ({ p with status := PipelineStatus.running },
        tr ++ [PrepEffect.event PipelineStatus.running])

/-- Observable effect of one `TeardownAfterReconcileDone` call, in program
order: a `UpdatePipelineBase` attempt (the TimeEnd write), the three
fire-and-forget metric emissions, the after-exec AOP hook attempt, the cron
compensation, the resource-GC wait, the cache clearing, and a
`UpdatePipelineExtraByPipelineID` attempt (the completion-marker write). -/
inductive TdEffect where
  | baseWriteAttempt (ok : Bool)
  | metricsCounter
  | metricsGauge
  | metricsEnd
  | aopHook (ok : Bool)
  | cronCompensate
  | resourceGC
  | clearCache
  | extraWriteAttempt (ok : Bool)
deriving DecidableEq, Repr

/-- Modelled from the spec: `rutil.ContinueWorking` (§4.7, not in the
source slice) — run the step repeatedly until it signals abort.  Each step
invocation consumes one entry of the modelled per-iteration store outcome
list and returns the mutated pipeline, its effects, and whether it aborts;
`none` means the modelled outcomes were exhausted with the loop still
continuing. -/
def continueWorking (step : Pipeline → Bool → Pipeline × List TdEffect × Bool)
    (p : Pipeline) : List Bool → Option (Pipeline × List TdEffect)
  | [] => none
  | ok :: rest =>
    let r := step p ok
    if r.2.2 then some (r.1, r.2.1)
    else (continueWorking step r.1 rest).map fun rr => (rr.1, r.2.1 ++ rr.2)

/-- Modelled from the spec: `costtimeutil.CalculatePipelineCostTimeSec`
(not in the source slice) — seconds from `TimeBegin` to `TimeEnd` (zero
while `TimeEnd` is unset). -/
def calculatePipelineCostTimeSec (p : Pipeline) : Nat :=
  match p.timeEnd with
  | none => 0
  | some te => te - p.timeBegin

/-- One iteration of the teardown TimeEnd block: abort if `TimeEnd` is
already set (in memory); otherwise set `TimeEnd := now`, compute
`CostTimeSec`, and attempt the `UpdatePipelineBase` write — abort on
success, continue (with the default interval) on failure. -/
def teardownTimeEndStep (now : Nat) (p : Pipeline) (writeOk : Bool) :
    Pipeline × List TdEffect × Bool :=
  if p.timeEnd ≠ none then (p, [], true)
  else
    let p1 := { p with timeEnd := some now }
    let p2 := { p1 with costTimeSec := calculatePipelineCostTimeSec p1 }
    (p2, [TdEffect.baseWriteAttempt writeOk], writeOk)

/-- One iteration of the teardown AOP block: attempt the after-exec hook
(its failure is only logged) and abort unconditionally. -/
def teardownAopStep (p : Pipeline) (hookOk : Bool) :
    Pipeline × List TdEffect × Bool :=
  (p, [TdEffect.aopHook hookOk], true)

/-- One iteration of the teardown completion-marker block: abort if
`CompleteReconcilerTeardown` is already true (in memory); otherwise set it
and attempt the `UpdatePipelineExtraByPipelineID` write — abort on success,
continue (with the configured retry interval) on failure. -/
def teardownMarkStep (p : Pipeline) (writeOk : Bool) :
    Pipeline × List TdEffect × Bool :=
  if p.completeReconcilerTeardown then (p, [], true)
  else
    let p1 := { p with completeReconcilerTeardown := true }
    (p1, [TdEffect.extraWriteAttempt writeOk], writeOk)

/-- `TeardownAfterReconcileDone`: the TimeEnd block, the three metric
emissions, the AOP block, cron compensation, resource-GC wait, cache
clearing, and finally the completion-marker block.  `baseOutcomes`,
`hookOk` and `extraOutcomes` give the modelled outcomes of the successive
store/hook attempts of each block. -/
def teardownAfterReconcileDone (p : Pipeline) (now : Nat)
    (baseOutcomes : List Bool) (hookOk : Bool) (extraOutcomes : List Bool) :
    Option (Pipeline × List TdEffect) :=
  (continueWorking (teardownTimeEndStep now) p baseOutcomes).bind fun r1 =>
    (continueWorking teardownAopStep r1.1 [hookOk]).bind fun r2 =>
      (continueWorking teardownMarkStep r2.1 extraOutcomes).map fun r3 =>
        (r3.1,
          r1.2 ++ [TdEffect.metricsCounter, TdEffect.metricsGauge, TdEffect.metricsEnd]
            ++ r2.2 ++ [TdEffect.cronCompensate, TdEffect.resourceGC, TdEffect.clearCache]
            ++ r3.2)

theorem countNamed_nil (name : String) : countNamed name [] = 0 := rfl

theorem countNamed_cons_self (t : PipelineTask) (ts : List PipelineTask) :
    countNamed t.name (t :: ts) = countNamed t.name ts + 1 := by
  simp [countNamed, List.filter_cons]

theorem countNamed_cons_ne (name : String) (t : PipelineTask)
    (ts : List PipelineTask) (h : ¬ t.name = name) :
    countNamed name (t :: ts) = countNamed name ts := by
  simp [countNamed, List.filter_cons, h]

theorem countNamed_append (name : String) (l1 l2 : List PipelineTask) :
    countNamed name (l1 ++ l2) = countNamed name l1 + countNamed name l2 := by
  simp [countNamed, List.filter_append]

theorem indMem_cons_self (a : String) (l : List String) :
    indMem a (a :: l) = 1 := by
  simp [indMem]

theorem indMem_cons_ne (name a : String) (l : List String) (h : ¬ name = a) :
    indMem name (a :: l) = indMem name l := by
  simp [indMem, List.mem_cons, h]

theorem indMem_le_one (name : String) (l : List String) : indMem name l ≤ 1 := by
  unfold indMem; split <;> simp

theorem indMem_eq_zero (name : String) (l : List String) (h : name ∉ l) :
    indMem name l = 0 := by
  simp [indMem, h]

/-- Core invariant of the insert-if-absent filter: the number of returned
tasks named `name`, plus the indicator of `name` being already recorded,
is bounded by the indicator of `name` being recorded afterwards. -/
theorem loadOrStoreFilter_count_le (name : String) (tasks : List PipelineTask) :
    ∀ processing : List String,
      countNamed name (loadOrStoreFilter processing tasks).2 + indMem name processing ≤
        indMem name (loadOrStoreFilter processing tasks).1 := by
  induction tasks with
  | nil => intro processing; simp [loadOrStoreFilter, countNamed_nil]
  | cons t ts ih =>
    intro processing
    by_cases hmem : t.name ∈ processing
    · simpa [loadOrStoreFilter, hmem] using ih processing
    · have ihc := ih (t.name :: processing)
      by_cases heq : t.name = name
      · subst heq
        have hnp : indMem t.name processing = 0 := indMem_eq_zero _ _ hmem
        rw [indMem_cons_self] at ihc
        simp only [loadOrStoreFilter, if_neg hmem]
        rw [countNamed_cons_self, hnp]
        omega
      · have hne : ¬ name = t.name := fun h => heq h.symm
        rw [indMem_cons_ne name t.name processing hne] at ihc
        simp only [loadOrStoreFilter, if_neg hmem]
        rw [countNamed_cons_ne name t ((loadOrStoreFilter (t.name :: processing) ts).2) heq]
        omega

/-- Per-call invariant: one `GetTasksCanBeConcurrentlyScheduled` call can
return a task named `name` only by moving the indicator of `name` in
`processingTasks` from 0 to 1. -/
theorem getTasksCanBeConcurrentlyScheduled_count_le (st : ReconcilerState)
    (mergeRes : Except Unit (List PipelineTask))
    (schedRes : List PipelineTask → Except Unit (List PipelineTask))
    (name : String) :
    countNamed name
        (match (getTasksCanBeConcurrentlyScheduled st mergeRes schedRes).2 with
          | .ok ts => ts
          | .error _ => []) +
      indMem name st.processingTasks ≤
      indMem name
        (getTasksCanBeConcurrentlyScheduled st mergeRes schedRes).1.processingTasks := by
  match mergeRes with
  | .error e => simp [getTasksCanBeConcurrentlyScheduled, countNamed_nil]
  | .ok allTasks =>
    by_cases hc : st.flagCanceling
    · simp [getTasksCanBeConcurrentlyScheduled, hc, countNamed_nil]
    · match hs : schedRes allTasks with
      | .error e => simp [getTasksCanBeConcurrentlyScheduled, hc, hs, countNamed_nil]
      | .ok schedulableTasks =>
        simpa [getTasksCanBeConcurrentlyScheduled, hc, hs] using
          loadOrStoreFilter_count_le name schedulableTasks st.processingTasks

theorem runGetTasksCalls_cons (st : ReconcilerState)
    (c : Except Unit (List PipelineTask) ×
      (List PipelineTask → Except Unit (List PipelineTask)))
    (cs : List (Except Unit (List PipelineTask) ×
      (List PipelineTask → Except Unit (List PipelineTask)))) :
    runGetTasksCalls st (c :: cs) =
      ((runGetTasksCalls (getTasksCanBeConcurrentlyScheduled st c.1 c.2).1 cs).1,
        (match (getTasksCanBeConcurrentlyScheduled st c.1 c.2).2 with
          | .ok ts => ts
          | .error _ => []) ::
          (runGetTasksCalls (getTasksCanBeConcurrentlyScheduled st c.1 c.2).1 cs).2) :=
  rfl

/-- Lifetime invariant: across a whole sequence of calls, the total number
of returned tasks named `name` plus the initial indicator is bounded by the
final indicator. -/
theorem runGetTasksCalls_count_le (name : String)
    (calls : List (Except Unit (List PipelineTask) ×
      (List PipelineTask → Except Unit (List PipelineTask)))) :
    ∀ st : ReconcilerState,
      countNamed name ((runGetTasksCalls st calls).2.flatten) +
        indMem name st.processingTasks ≤
        indMem name (runGetTasksCalls st calls).1.processingTasks := by
  induction calls with
  | nil => intro st; simp [runGetTasksCalls, countNamed_nil]
  | cons c cs ih =>
    intro st
    have hstep := getTasksCanBeConcurrentlyScheduled_count_le st c.1 c.2 name
    have hrest := ih (getTasksCanBeConcurrentlyScheduled st c.1 c.2).1
    rw [runGetTasksCalls_cons]
    simp only [List.flatten_cons, countNamed_append]
    omega

/-- C1: for every task Name, across all calls to
`GetTasksCanBeConcurrentlyScheduled` during one reconciler's lifetime,
that Name appears in a returned task list at most once — the
insert-if-absent `processingTasks` set, whose entries are never removed,
admits each name into at most one returned list, so the task-reconciler
worker for that Name is dispatched at most once. -/
theorem getTasksCanBeConcurrentlyScheduled_dispatches_each_name_at_most_once
    (st : ReconcilerState)
    (calls : List (Except Unit (List PipelineTask) ×
      (List PipelineTask → Except Unit (List PipelineTask))))
    (name : String) :
    countNamed name ((runGetTasksCalls st calls).2.flatten) ≤ 1 := by
  have h := runGetTasksCalls_count_le name calls st
  have hle := indMem_le_one name (runGetTasksCalls st calls).1.processingTasks
  omega

/-- C9: `CancelReconcile` sets the canceling flag to true and modifies no
other reconciler state, and no state-modifying operation of the reconciler
(the schedulable-set computation or the status aggregator) ever changes the
flag, so once set it remains set for the lifetime of the reconciler. -/
theorem cancelReconcile_sets_sticky_flag (st : ReconcilerState)
    (m : Except Unit (List PipelineTask))
    (s : List PipelineTask → Except Unit (List PipelineTask))
    (m2 r2 : Except Unit (List PipelineTask)) :
    cancelReconcile st = { st with flagCanceling := true } ∧
    (cancelReconcile st).flagCanceling = true ∧
    (getTasksCanBeConcurrentlyScheduled st m s).1.flagCanceling = st.flagCanceling ∧
    (calculatePipelineStatusByAllReconciledTasks st m2 r2).1.flagCanceling =
      st.flagCanceling := by
  refine ⟨rfl, rfl, ?_, ?_⟩
  · cases m with
    | error e => rfl
    | ok ts =>
      by_cases hc : st.flagCanceling
      · simp [getTasksCanBeConcurrentlyScheduled, hc]
      · cases hs : s ts with
        | error e => simp [getTasksCanBeConcurrentlyScheduled, hc, hs]
        | ok sts => simp [getTasksCanBeConcurrentlyScheduled, hc, hs]
  · cases hf : st.flagHaveTask with
    | none =>
      cases m2 with
      | error e => simp [calculatePipelineStatusByAllReconciledTasks, hf]
      | ok ts =>
        cases r2 with
        | error e =>
          simp [calculatePipelineStatusByAllReconciledTasks, hf,
            calculatePipelineStatusAfterFlag]
        | ok rows =>
          simp [calculatePipelineStatusByAllReconciledTasks, hf,
            calculatePipelineStatusAfterFlag]
    | some b =>
      cases r2 with
      | error e =>
        cases m2 <;>
          simp [calculatePipelineStatusByAllReconciledTasks, hf,
            calculatePipelineStatusAfterFlag]
      | ok rows =>
        cases m2 <;>
          simp [calculatePipelineStatusByAllReconciledTasks, hf,
            calculatePipelineStatusAfterFlag]

/-- If the cached aggregated status is a terminal status `s` and the store
write succeeds, `UpdateCurrentReconcileStatusIfNecessary` leaves the
pipeline with status `s` (writing it if it differed) and returns no
error. -/
theorem update_with_terminal_calculated_status (st : ReconcilerState)
    (p : Pipeline) (m : Except Unit (List PipelineTask)) (s : PipelineStatus)
    (hc : st.calculatedPipelineStatusByAllReconciledTasks = s)
    (hend : s.isEndStatus = true) :
    (updateCurrentReconcileStatusIfNecessary st p m true).p.status = s ∧
    (updateCurrentReconcileStatusIfNecessary st p m true).err = false := by
  subst hc
  by_cases hpe : p.status = st.calculatedPipelineStatusByAllReconciledTasks
  · constructor <;> simp [updateCurrentReconcileStatusIfNecessary, hend, hpe]
  · constructor <;> simp [updateCurrentReconcileStatusIfNecessary, hend, hpe]

/-- C2: if the canceling flag is set when the status aggregator runs (and
its reads succeed), the aggregated status is overridden to `StopByUser`
regardless of the reduction over the persisted task rows; `StopByUser` is
terminal, so a subsequent successful
`UpdateCurrentReconcileStatusIfNecessary` leaves the pipeline persisted
with terminal status `StopByUser`. -/
theorem canceling_aggregates_and_persists_stopByUser (st : ReconcilerState)
    (allTasks rows : List PipelineTask) (p : Pipeline)
    (m2 : Except Unit (List PipelineTask))
    (hcancel : st.flagCanceling = true) :
    (calculatePipelineStatusByAllReconciledTasks st (Except.ok allTasks)
        (Except.ok rows)).2 = Except.ok () ∧
    (calculatePipelineStatusByAllReconciledTasks st (Except.ok allTasks)
        (Except.ok rows)).1.calculatedPipelineStatusByAllReconciledTasks =
      PipelineStatus.stopByUser ∧
    PipelineStatus.isEndStatus PipelineStatus.stopByUser = true ∧
    (updateCurrentReconcileStatusIfNecessary
        (calculatePipelineStatusByAllReconciledTasks st (Except.ok allTasks)
          (Except.ok rows)).1 p m2 true).p.status = PipelineStatus.stopByUser := by
  have hcalc :
      (calculatePipelineStatusByAllReconciledTasks st (Except.ok allTasks)
        (Except.ok rows)).1.calculatedPipelineStatusByAllReconciledTasks =
        PipelineStatus.stopByUser ∧
      (calculatePipelineStatusByAllReconciledTasks st (Except.ok allTasks)
        (Except.ok rows)).2 = Except.ok () := by
    cases hf : st.flagHaveTask with
    | none =>
      constructor <;>
        simp [calculatePipelineStatusByAllReconciledTasks, hf,
          calculatePipelineStatusAfterFlag, hcancel]
    | some b =>
      constructor <;>
        simp [calculatePipelineStatusByAllReconciledTasks, hf,
          calculatePipelineStatusAfterFlag, hcancel]
  refine ⟨hcalc.2, hcalc.1, rfl, ?_⟩
  exact (update_with_terminal_calculated_status _ p m2 PipelineStatus.stopByUser
    hcalc.1 rfl).1

/-- Witness for C2 at a concrete canceling state. -/
theorem canceling_aggregates_and_persists_stopByUser_witness :
    (calculatePipelineStatusByAllReconciledTasks
        ⟨[], true, some true, PipelineStatus.born⟩
        (Except.ok []) (Except.ok [])).2 = Except.ok () ∧
    (calculatePipelineStatusByAllReconciledTasks
        ⟨[], true, some true, PipelineStatus.born⟩
        (Except.ok []) (Except.ok [])).1.calculatedPipelineStatusByAllReconciledTasks =
      PipelineStatus.stopByUser ∧
    PipelineStatus.isEndStatus PipelineStatus.stopByUser = true ∧
    (updateCurrentReconcileStatusIfNecessary
        (calculatePipelineStatusByAllReconciledTasks
          ⟨[], true, some true, PipelineStatus.born⟩
          (Except.ok []) (Except.ok [])).1
        ⟨1, PipelineStatus.running, 0, none, 0, false⟩
        (Except.ok []) true).p.status = PipelineStatus.stopByUser :=
  canceling_aggregates_and_persists_stopByUser
    ⟨[], true, some true, PipelineStatus.born⟩ [] []
    ⟨1, PipelineStatus.running, 0, none, 0, false⟩ (Except.ok []) rfl

/-- C3: `UpdateCurrentReconcileStatusIfNecessary` writes the pipeline
status and emits an event only when the cached aggregated status is
terminal or every task in the merged view is terminal, and only when the
chosen status differs from the pipeline's current status; when neither
condition holds it returns nil with the pipeline, its in-memory status,
and the write/event streams unchanged. -/
theorem updateCurrentReconcileStatusIfNecessary_write_gated
    (st : ReconcilerState) (p : Pipeline) (allTasks : List PipelineTask)
    (storeOk : Bool) :
    (((updateCurrentReconcileStatusIfNecessary st p (Except.ok allTasks)
          storeOk).writes ≠ [] ∨
      (updateCurrentReconcileStatusIfNecessary st p (Except.ok allTasks)
          storeOk).events ≠ []) →
      ((st.calculatedPipelineStatusByAllReconciledTasks.isEndStatus = true ∨
          calculatePipelineTaskAllDone allTasks = true) ∧
        p.status ≠
          (if st.calculatedPipelineStatusByAllReconciledTasks.isEndStatus
            then st.calculatedPipelineStatusByAllReconciledTasks
            else calculatePipelineStatusV2 allTasks))) ∧
    (st.calculatedPipelineStatusByAllReconciledTasks.isEndStatus = false →
      calculatePipelineTaskAllDone allTasks = false →
      updateCurrentReconcileStatusIfNecessary st p (Except.ok allTasks)
          storeOk = ⟨p, [], [], false⟩) := by
  constructor
  · intro h
    by_cases hend : st.calculatedPipelineStatusByAllReconciledTasks.isEndStatus = true
    · refine ⟨Or.inl hend, ?_⟩
      intro hpe
      rw [if_pos hend] at hpe
      simp [updateCurrentReconcileStatusIfNecessary, hend, hpe] at h
    · have hend' : st.calculatedPipelineStatusByAllReconciledTasks.isEndStatus = false :=
        Bool.eq_false_iff.mpr (fun hx => hend hx)
      by_cases hdone : calculatePipelineTaskAllDone allTasks = true
      · refine ⟨Or.inr hdone, ?_⟩
        intro hpe
        rw [if_neg (by simp [hend'])] at hpe
        simp [updateCurrentReconcileStatusIfNecessary, hend', hdone, hpe] at h
      · have hdone' : calculatePipelineTaskAllDone allTasks = false :=
          Bool.eq_false_iff.mpr (fun hx => hdone hx)
        simp [updateCurrentReconcileStatusIfNecessary, hend', hdone'] at h
  · intro hend hdone
    simp [updateCurrentReconcileStatusIfNecessary, hend, hdone]

/-- Witness for C3: a non-terminal aggregate over a still-running merged
view leaves everything unchanged. -/
theorem updateCurrentReconcileStatusIfNecessary_write_gated_witness :
    updateCurrentReconcileStatusIfNecessary
        ⟨[], false, some true, PipelineStatus.running⟩
        ⟨1, PipelineStatus.running, 0, none, 0, false⟩
        (Except.ok [⟨"a", PipelineStatus.running⟩]) true =
      ⟨⟨1, PipelineStatus.running, 0, none, 0, false⟩, [], [], false⟩ :=
  (updateCurrentReconcileStatusIfNecessary_write_gated
      ⟨[], false, some true, PipelineStatus.running⟩
      ⟨1, PipelineStatus.running, 0, none, 0, false⟩
      [⟨"a", PipelineStatus.running⟩] true).2 (by decide) (by decide)

/-- C4: when the reduction over the persisted rows is a success status but
there are zero persisted rows and the have-task flag resolves to true (and
the reconciler is not canceling), the aggregator overrides the aggregated
status to `Running` — it never caches `Success` before the first task row
is written. -/
theorem aggregator_overrides_empty_success_to_running (st : ReconcilerState)
    (ts : List PipelineTask)
    (hcancel : st.flagCanceling = false)
    (hhave : st.flagHaveTask = some true ∨
      (st.flagHaveTask = none ∧ ts ≠ [])) :
    PipelineStatus.isSuccessStatus (calculatePipelineStatusV2 []) = true ∧
    (calculatePipelineStatusByAllReconciledTasks st (Except.ok ts)
        (Except.ok [])).1.calculatedPipelineStatusByAllReconciledTasks =
      PipelineStatus.running ∧
    PipelineStatus.running ≠ PipelineStatus.success := by
  refine ⟨by decide, ?_, by decide⟩
  rcases hhave with hsome | ⟨hnone, hne⟩
  · simp [calculatePipelineStatusByAllReconciledTasks, hsome,
      calculatePipelineStatusAfterFlag, calculatePipelineStatusV2, hcancel,
      PipelineStatus.isSuccessStatus]
  · have hlen : 0 < ts.length := List.length_pos.mpr hne
    simp [calculatePipelineStatusByAllReconciledTasks, hnone,
      calculatePipelineStatusAfterFlag, calculatePipelineStatusV2, hcancel, hlen,
      PipelineStatus.isSuccessStatus]

/-- Witness for C4: unknown have-task flag, one declared task, zero rows. -/
theorem aggregator_overrides_empty_success_to_running_witness :
    PipelineStatus.isSuccessStatus (calculatePipelineStatusV2 []) = true ∧
    (calculatePipelineStatusByAllReconciledTasks
        ⟨[], false, none, PipelineStatus.born⟩
        (Except.ok [⟨"a", PipelineStatus.born⟩])
        (Except.ok [])).1.calculatedPipelineStatusByAllReconciledTasks =
      PipelineStatus.running ∧
    PipelineStatus.running ≠ PipelineStatus.success :=
  aggregator_overrides_empty_success_to_running
    ⟨[], false, none, PipelineStatus.born⟩ [⟨"a", PipelineStatus.born⟩]
    rfl (Or.inr ⟨rfl, by decide⟩)

/-- C8: applied twice on the same task-row snapshot,
`UpdateCurrentReconcileStatusIfNecessary` performs the store write and the
event emission at most once: after a first successful call, the second call
finds the calculated status equal to the pipeline's current status and
returns with no write, no event, and the pipeline unchanged. -/
theorem updateCurrentReconcileStatusIfNecessary_idempotent
    (st : ReconcilerState) (p : Pipeline)
    (m : Except Unit (List PipelineTask))
    (h : (updateCurrentReconcileStatusIfNecessary st p m true).err = false) :
    updateCurrentReconcileStatusIfNecessary st
        (updateCurrentReconcileStatusIfNecessary st p m true).p m true =
      ⟨(updateCurrentReconcileStatusIfNecessary st p m true).p, [], [], false⟩ := by
  by_cases hend : st.calculatedPipelineStatusByAllReconciledTasks.isEndStatus = true
  · by_cases hpe : p.status = st.calculatedPipelineStatusByAllReconciledTasks
    · simp [updateCurrentReconcileStatusIfNecessary, hend, hpe]
    · simp [updateCurrentReconcileStatusIfNecessary, hend, hpe]
  · have hend' : st.calculatedPipelineStatusByAllReconciledTasks.isEndStatus = false :=
      Bool.eq_false_iff.mpr (fun hx => hend hx)
    cases m with
    | error e =>
      exfalso
      simp [updateCurrentReconcileStatusIfNecessary, hend'] at h
    | ok allTasks =>
      by_cases hdone : calculatePipelineTaskAllDone allTasks = true
      · by_cases hpe : p.status = calculatePipelineStatusV2 allTasks
        · simp [updateCurrentReconcileStatusIfNecessary, hend', hdone, hpe]
        · simp [updateCurrentReconcileStatusIfNecessary, hend', hdone, hpe]
      · have hdone' : calculatePipelineTaskAllDone allTasks = false :=
          Bool.eq_false_iff.mpr (fun hx => hdone hx)
        simp [updateCurrentReconcileStatusIfNecessary, hend', hdone']

/-- Witness for C8: a terminal aggregate written once, then re-applied. -/
theorem updateCurrentReconcileStatusIfNecessary_idempotent_witness :
    updateCurrentReconcileStatusIfNecessary
        ⟨[], false, some true, PipelineStatus.failed⟩
        (updateCurrentReconcileStatusIfNecessary
          ⟨[], false, some true, PipelineStatus.failed⟩
          ⟨1, PipelineStatus.running, 0, none, 0, false⟩
          (Except.ok []) true).p
        (Except.ok []) true =
      ⟨(updateCurrentReconcileStatusIfNecessary
          ⟨[], false, some true, PipelineStatus.failed⟩
          ⟨1, PipelineStatus.running, 0, none, 0, false⟩
          (Except.ok []) true).p, [], [], false⟩ :=
  updateCurrentReconcileStatusIfNecessary_idempotent
    ⟨[], false, some true, PipelineStatus.failed⟩
    ⟨1, PipelineStatus.running, 0, none, 0, false⟩
    (Except.ok []) (by decide)

/-- C10: if the `UpdatePipelineBaseStatus` write fails inside
`UpdateCurrentReconcileStatusIfNecessary`, the call returns the error with
the in-memory pipeline status unchanged and no event emitted, and a later
retry (same inputs, write succeeding) performs exactly the transition the
failed call attempted. -/
theorem updateCurrentReconcileStatusIfNecessary_store_failure_frame
    (st : ReconcilerState) (p : Pipeline) (allTasks : List PipelineTask)
    (hcond : st.calculatedPipelineStatusByAllReconciledTasks.isEndStatus = true ∨
      (st.calculatedPipelineStatusByAllReconciledTasks.isEndStatus = false ∧
        calculatePipelineTaskAllDone allTasks = true))
    (hne : p.status ≠
      (if st.calculatedPipelineStatusByAllReconciledTasks.isEndStatus
        then st.calculatedPipelineStatusByAllReconciledTasks
        else calculatePipelineStatusV2 allTasks)) :
    updateCurrentReconcileStatusIfNecessary st p (Except.ok allTasks) false =
      ⟨p, [], [], true⟩ ∧
    updateCurrentReconcileStatusIfNecessary st p (Except.ok allTasks) true =
      ⟨{ p with status :=
          (if st.calculatedPipelineStatusByAllReconciledTasks.isEndStatus
            then st.calculatedPipelineStatusByAllReconciledTasks
            else calculatePipelineStatusV2 allTasks) },
        [(if st.calculatedPipelineStatusByAllReconciledTasks.isEndStatus
            then st.calculatedPipelineStatusByAllReconciledTasks
            else calculatePipelineStatusV2 allTasks)],
        [(if st.calculatedPipelineStatusByAllReconciledTasks.isEndStatus
            then st.calculatedPipelineStatusByAllReconciledTasks
            else calculatePipelineStatusV2 allTasks)], false⟩ := by
  rcases hcond with hend | ⟨hend, hdone⟩
  · rw [if_pos hend] at hne
    constructor <;> simp [updateCurrentReconcileStatusIfNecessary, hend, hne]
  · rw [if_neg (by simp [hend])] at hne
    constructor <;>
      simp [updateCurrentReconcileStatusIfNecessary, hend, hdone, hne]

/-- Witness for C10: a failed then a successful write of a terminal
aggregate. -/
theorem updateCurrentReconcileStatusIfNecessary_store_failure_frame_witness :
    updateCurrentReconcileStatusIfNecessary
        ⟨[], false, some true, PipelineStatus.stopByUser⟩
        ⟨1, PipelineStatus.running, 0, none, 0, false⟩
        (Except.ok []) false =
      ⟨⟨1, PipelineStatus.running, 0, none, 0, false⟩, [], [], true⟩ ∧
    updateCurrentReconcileStatusIfNecessary
        ⟨[], false, some true, PipelineStatus.stopByUser⟩
        ⟨1, PipelineStatus.running, 0, none, 0, false⟩
        (Except.ok []) true =
      ⟨⟨1, PipelineStatus.stopByUser, 0, none, 0, false⟩,
        [PipelineStatus.stopByUser], [PipelineStatus.stopByUser], false⟩ := by
  have h := updateCurrentReconcileStatusIfNecessary_store_failure_frame
    ⟨[], false, some true, PipelineStatus.stopByUser⟩
    ⟨1, PipelineStatus.running, 0, none, 0, false⟩ []
    (Or.inl (by decide)) (by decide)
  simpa using h

theorem prepareStatusLoop_replicate_false (n : Nat) (rest : List Bool) :
    prepareStatusLoop (List.replicate n false ++ true :: rest) =
      some (List.replicate n (PrepEffect.writeAttempt false) ++
        [PrepEffect.writeAttempt true]) := by
  induction n with
  | zero => simp [prepareStatusLoop]
  | succ k ih => simp [List.replicate_succ, prepareStatusLoop, ih]

theorem prepareStatusLoop_all_false (n : Nat) :
    prepareStatusLoop (List.replicate n false) = none := by
  induction n with
  | zero => rfl
  | succ k ih => simp [List.replicate_succ, prepareStatusLoop, ih]

/-- C5: `PrepareBeforeReconcile` with a status short of the after-queue
checkpoint retries the `Running` write until an attempt succeeds (never
returning while the store keeps failing), then sets the in-memory status to
`Running` and emits exactly one pipeline-instance event, after the
successful write; with a status past the checkpoint it performs no write
and emits no event. -/
theorem prepareBeforeReconcile_retries_then_single_event (p : Pipeline)
    (storeResults : List Bool) (n : Nat) (rest : List Bool)
    (hbefore : p.status.afterPipelineQueue = false) :
    (∀ q : Pipeline, q.status.afterPipelineQueue = true →
      prepareBeforeReconcile q storeResults = some (q, [])) ∧
    prepareBeforeReconcile p (List.replicate n false ++ true :: rest) =
      some ({ p with status := PipelineStatus.running },
        List.replicate n (PrepEffect.writeAttempt false) ++
          [PrepEffect.writeAttempt true,
            PrepEffect.event PipelineStatus.running]) ∧
    prepareBeforeReconcile p (List.replicate n false) = none := by
  refine ⟨?_, ?_, ?_⟩
  · intro q hq
    simp [prepareBeforeReconcile, hq]
  · simp [prepareBeforeReconcile, hbefore, prepareStatusLoop_replicate_false]
  · simp [prepareBeforeReconcile, hbefore, prepareStatusLoop_all_false]

/-- Witness for C5: a queued pipeline whose write fails three times then
succeeds. -/
theorem prepareBeforeReconcile_retries_then_single_event_witness :
    prepareBeforeReconcile ⟨1, PipelineStatus.queue, 0, none, 0, false⟩
        (List.replicate 3 false ++ true :: []) =
      some (⟨1, PipelineStatus.running, 0, none, 0, false⟩,
        List.replicate 3 (PrepEffect.writeAttempt false) ++
          [PrepEffect.writeAttempt true,
            PrepEffect.event PipelineStatus.running]) :=
  (prepareBeforeReconcile_retries_then_single_event
    ⟨1, PipelineStatus.queue, 0, none, 0, false⟩ [] 3 [] (by decide)).2.1

/-- C7: the teardown TimeEnd block sets `TimeEnd` (computing `CostTimeSec`)
and attempts the pipeline-base write only when `TimeEnd` is nil on entry;
when `TimeEnd` is already set it aborts at once, leaving the pipeline and
the store untouched — so `TimeEnd` is set at most once. -/
theorem teardown_sets_timeEnd_at_most_once (now : Nat) (p : Pipeline)
    (o o2 : Bool) (rest : List Bool) :
    (∀ t, p.timeEnd = some t →
      continueWorking (teardownTimeEndStep now) p (o :: rest) = some (p, [])) ∧
    (p.timeEnd = none →
      continueWorking (teardownTimeEndStep now) p (o :: o2 :: rest) =
        some ({ p with
            timeEnd := some now,
            costTimeSec :=
              calculatePipelineCostTimeSec { p with timeEnd := some now } },
          [TdEffect.baseWriteAttempt o])) := by
  constructor
  · intro t ht
    simp [continueWorking, teardownTimeEndStep, ht]
  · intro hnone
    cases o with
    | true => simp [continueWorking, teardownTimeEndStep, hnone]
    | false => simp [continueWorking, teardownTimeEndStep, hnone]

/-- Witness for C7: both the already-set and the unset entry cases at
concrete pipelines. -/
theorem teardown_sets_timeEnd_at_most_once_witness :
    continueWorking (teardownTimeEndStep 25)
        ⟨1, PipelineStatus.success, 10, some 20, 10, false⟩ [true] =
      some (⟨1, PipelineStatus.success, 10, some 20, 10, false⟩, []) ∧
    continueWorking (teardownTimeEndStep 25)
        ⟨1, PipelineStatus.success, 10, none, 0, false⟩ [false, true] =
      some (⟨1, PipelineStatus.success, 10, some 25, 15, false⟩,
        [TdEffect.baseWriteAttempt false]) := by
  constructor
  · exact (teardown_sets_timeEnd_at_most_once 25
      ⟨1, PipelineStatus.success, 10, some 20, 10, false⟩ true true []).1 20 rfl
  · have h := (teardown_sets_timeEnd_at_most_once 25
      ⟨1, PipelineStatus.success, 10, none, 0, false⟩ false true []).2 rfl
    simpa [calculatePipelineCostTimeSec] using h

/-- C6 (failing input): at a teardown whose completion-marker write fails
once while the store would accept a retry, the code performs exactly one
(failed) marker write attempt — the in-memory flag set before the write
makes the retry iteration abort — so the marker is never persisted,
although every earlier teardown step ran and the marker attempt came last
in program order. -/
theorem teardown_marker_write_not_retried_at_failing_input :
    teardownAfterReconcileDone ⟨1, PipelineStatus.success, 10, none, 0, false⟩
        25 [true] true [false, true] =
      some (⟨1, PipelineStatus.success, 10, some 25, 15, true⟩,
        [TdEffect.baseWriteAttempt true, TdEffect.metricsCounter,
          TdEffect.metricsGauge, TdEffect.metricsEnd, TdEffect.aopHook true,
          TdEffect.cronCompensate, TdEffect.resourceGC, TdEffect.clearCache,
          TdEffect.extraWriteAttempt false]) ∧
    TdEffect.extraWriteAttempt true ∉
      [TdEffect.baseWriteAttempt true, TdEffect.metricsCounter,
        TdEffect.metricsGauge, TdEffect.metricsEnd, TdEffect.aopHook true,
        TdEffect.cronCompensate, TdEffect.resourceGC, TdEffect.clearCache,
        TdEffect.extraWriteAttempt false] := by
  constructor
  · rfl
  · decide
